import Mathlib

/-!
Shallow embedding of `expense_tracker.py` (single-file personal expense
tracker over SQLite).  The SQLite state (the `expenses` table, its
AUTOINCREMENT counter, and the single `budget` key of the `settings`
table) is embedded as an explicit `DB` value threaded through every
operation.  REAL amounts are embedded as rationals; dates are stored as
`TEXT` exactly as in the table, and SQLite's BINARY text collation is
embedded as code-point lexicographic comparison.
-/

set_option maxHeartbeats 1000000

namespace ExpenseTracker

/-- Calendar date, as carried by Python `datetime.date`. -/
structure Date where
  year : ℕ
  month : ℕ
  day : ℕ
deriving DecidableEq, Repr

/-- Row of the `expenses` table:
`id INTEGER PRIMARY KEY AUTOINCREMENT, category TEXT NOT NULL, amount REAL NOT NULL, date TEXT NOT NULL, note TEXT`. -/
structure Record where
  id : ℕ
  category : String
  amount : ℚ
  date : String
  note : String
deriving DecidableEq, Repr

/-- Persistent state: the `expenses` table (in rowid order), its
AUTOINCREMENT counter, and the optional `budget` value of the `settings`
table (stored there as decimal text; embedded directly as the numeric
value it denotes). -/
structure DB where
  expenses : List Record
  nextId : ℕ
  budget : Option ℚ
deriving DecidableEq, Repr

deriving instance DecidableEq for Except

/-! ### Text comparison (SQLite BINARY collation on UTF-8 text) -/

/-- Code-point lexicographic comparison of character lists; agrees with
SQLite's byte-wise comparison of the UTF-8 encodings. -/
def lexLe : List Char → List Char → Bool
  | [], _ => true
  | _ :: _, [] => false
  | a :: as, b :: bs =>
    if a.toNat < b.toNat then true
    else if b.toNat < a.toNat then false
    else lexLe as bs

/-- SQLite `a <= b` on TEXT values. -/
def strLeB (a b : String) : Bool := lexLe a.data b.data

/-- SQLite filter `date >= s AND date <= e` used by every range query. -/
def inRangeB (s e d : String) : Bool := strLeB s d && strLeB d e

/-! ### Dates (proleptic Gregorian calendar, as in Python `datetime`) -/

def isLeap (y : ℕ) : Bool := y % 4 == 0 && (y % 100 != 0 || y % 400 == 0)

def daysInMonth (y m : ℕ) : ℕ :=
  if m = 2 then (if isLeap y then 29 else 28)
  else if m = 4 ∨ m = 6 ∨ m = 9 ∨ m = 11 then 30
  else 31

def ValidDate (d : Date) : Prop :=
  1 ≤ d.month ∧ d.month ≤ 12 ∧ 1 ≤ d.day ∧ d.day ≤ daysInMonth d.year d.month

instance (d : Date) : Decidable (ValidDate d) := by
  unfold ValidDate; infer_instance

/-- Previous calendar day (`d - timedelta(days=1)`). -/
def prevDay (d : Date) : Date :=
  if 1 < d.day then ⟨d.year, d.month, d.day - 1⟩
  else if 1 < d.month then ⟨d.year, d.month - 1, daysInMonth d.year (d.month - 1)⟩
  else ⟨d.year - 1, 12, 31⟩

/-- Next calendar day (`d + timedelta(days=1)`). -/
def nextDay (d : Date) : Date :=
  if d.day < daysInMonth d.year d.month then ⟨d.year, d.month, d.day + 1⟩
  else if d.month < 12 then ⟨d.year, d.month + 1, 1⟩
  else ⟨d.year + 1, 1, 1⟩

/-- Python `d - timedelta(days=n)`. -/
def subDays (d : Date) (n : ℕ) : Date := prevDay^[n] d

def pad2 (n : ℕ) : String := if n < 10 then "0" ++ toString n else toString n

def pad4 (n : ℕ) : String :=
  if n < 10 then "000" ++ toString n
  else if n < 100 then "00" ++ toString n
  else if n < 1000 then "0" ++ toString n
  else toString n

/-- `d.strftime("%Y-%m-%d")`. -/
def fmtDate (d : Date) : String := pad4 d.year ++ "-" ++ pad2 d.month ++ "-" ++ pad2 d.day

/-- Split a character list on `'-'` (Python `re`-level tokenisation of
the `%Y-%m-%d` pattern). -/
def splitDash : List Char → List (List Char)
  | [] => [[]]
  | c :: cs =>
    match splitDash cs with
    | [] => [[c]]
    | h :: t => if c = '-' then [] :: h :: t else (c :: h) :: t

def isDigitCh (c : Char) : Bool := 48 ≤ c.toNat && c.toNat ≤ 57

def allDigits (cs : List Char) : Bool := cs.all isDigitCh

def digitsToNat (cs : List Char) : ℕ := cs.foldl (fun a c => a * 10 + (c.toNat - 48)) 0

/-- `datetime.datetime.strptime(s, "%Y-%m-%d").date()`: the CPython
`_strptime` regex takes exactly four digits for `%Y` and one or two
digits for `%m` and `%d`, then the `datetime` constructor checks that
the result is a real calendar date (year at least 1). -/
def parseDate (s : String) : Option Date :=
  match splitDash s.data with
  | [ys, ms, ds] =>
    if (ys.length == 4 && allDigits ys
        && (ms.length == 1 || ms.length == 2) && allDigits ms
        && (ds.length == 1 || ds.length == 2) && allDigits ds) then
      let y := digitsToNat ys
      let m := digitsToNat ms
      let d := digitsToNat ds
      if (1 ≤ y ∧ 1 ≤ m ∧ m ≤ 12 ∧ 1 ≤ d ∧ d ≤ daysInMonth y m) then some ⟨y, m, d⟩
      else none
    else none
  | _ => none

/-! ### Budget helpers (`set_budget_limit`, `get_budget_limit`, `get_monthly_total`) -/

def set_budget_limit (db : DB) (amount : ℚ) : DB := { db with budget := some amount }

def get_budget_limit (db : DB) : Option ℚ := db.budget

/-- First day of the current month (`today.replace(day=1)`). -/
def month_start (today : Date) : Date := ⟨today.year, today.month, 1⟩

/-- `get_monthly_total`: `SELECT SUM(amount) FROM expenses WHERE date >= ? AND date <= ?`
for the range from the first of the current month through today; SQL's
NULL sum over an empty selection is returned as `0.0`. -/
def get_monthly_total (db : DB) (today : Date) : ℚ :=
  ((db.expenses.filter fun r =>
      inRangeB (fmtDate (month_start today)) (fmtDate today) r.date).map Record.amount).sum

/-! ### Adding an expense -/

/-- Post-insert budget check inside `add_expense_db` (lines 78-84): if a
budget is configured (`is not None`) and the month-to-date total exceeds
it, the returned warning string interpolates the total and the budget
(in that order); otherwise no warning. -/
def add_budget_warning (budget : Option ℚ) (total : ℚ) : Option (ℚ × ℚ) :=
  match budget with
  | none => none
  | some b => if total > b then some (total, b) else none

/-- `add_expense_db(category, amount, date_str, note)`: an empty date
string defaults to today; otherwise the date must `strptime` as
`%Y-%m-%d` (and is re-serialised with `strftime`, normalising e.g.
`2024-3-1` to `2024-03-01`); on parse failure a `ValueError` is raised
and nothing is inserted.  On success the record is appended with the
next AUTOINCREMENT id and the budget check runs against the
month-to-date total of the updated table. -/
def add_expense_db (db : DB) (today : Date) (category : String) (amount : ℚ)
    (date_str : String) (note : String) : Except String (DB × Option (ℚ × ℚ)) :=
  match (if date_str = "" then some (fmtDate today) else (parseDate date_str).map fmtDate) with
  | none => .error "Date must be in YYYY-MM-DD format"
  | some ds =>
    let db2 : DB :=
      { db with
        expenses := db.expenses ++ [⟨db.nextId, category, amount, ds, note⟩]
        nextId := db.nextId + 1 }
    .ok (db2, add_budget_warning db.budget (get_monthly_total db2 today))

/-- Database state as seen by a caller of `add_expense_db` after the
call returns or raises: on a `ValueError` the table is untouched. -/
def db_after_add (db : DB) (today : Date) (category : String) (amount : ℚ)
    (date_str : String) (note : String) : DB :=
  match add_expense_db db today category amount date_str note with
  | .ok p => p.1
  | .error _ => db

/-! ### Summaries -/

/-- Order produced by `ORDER BY total DESC`. -/
def sumOrd (p q : String × ℚ) : Prop := q.2 ≤ p.2

instance : DecidableRel sumOrd := fun p q => inferInstanceAs (Decidable (q.2 ≤ p.2))

instance : IsTotal (String × ℚ) sumOrd := ⟨fun a b => le_total b.2 a.2⟩

instance : IsTrans (String × ℚ) sumOrd := ⟨fun _ _ _ h1 h2 => le_trans h2 h1⟩

/-- `get_summary_range`: `SELECT category, SUM(amount) FROM expenses
WHERE date >= ? AND date <= ? GROUP BY category ORDER BY total DESC`. -/
def get_summary_range (db : DB) (start_date end_date : String) : List (String × ℚ) :=
  let f := db.expenses.filter fun r => inRangeB start_date end_date r.date
  List.insertionSort sumOrd
    ((f.map Record.category).dedup.map fun c =>
      (c, ((f.filter fun r => r.category == c).map Record.amount).sum))

/-- Period-to-range translation inside `get_summary_period` (lines
99-110): `weekly` is the trailing 7 days ending today, `monthly` is
month-to-date, anything else raises `ValueError("Unknown period")`. -/
def resolve_period (period : String) (today : Date) : Except String (Date × Date) :=
  if period = "weekly" then .ok (subDays today 6, today)
  else if period = "monthly" then .ok (month_start today, today)
  else .error "Unknown period"

/-- `get_summary_period`. -/
def get_summary_period (db : DB) (today : Date) (period : String) :
    Except String (List (String × ℚ)) :=
  (resolve_period period today).map fun p => get_summary_range db (fmtDate p.1) (fmtDate p.2)

/-- Post-summary budget check in `cli_show_summary` (lines 208-213):
guarded by Python truthiness (`if budget:`), so a configured budget of
`0.0` is skipped; the warning line interpolates `total - budget`. -/
def summary_budget_warning (budget : Option ℚ) (total : ℚ) : Option ℚ :=
  match budget with
  | none => none
  | some b => if b ≠ 0 then (if total > b then some (total - b) else none) else none

/-- `cli_show_summary`: rows of the period summary, their grand total,
and the optional budget warning printed afterwards. -/
def cli_show_summary (db : DB) (today : Date) (period : String) :
    Except String (List (String × ℚ) × ℚ × Option ℚ) :=
  (get_summary_period db today period).map fun rows =>
    (rows, (rows.map Prod.snd).sum, summary_budget_warning db.budget ((rows.map Prod.snd).sum))

/-! ### Listing and deleting entries -/

/-- Order produced by `ORDER BY date DESC, id DESC`. -/
def entOrd (a b : Record) : Prop :=
  strLeB b.date a.date = true ∧ (a.date = b.date → b.id ≤ a.id)

instance : DecidableRel entOrd := fun a b => by unfold entOrd; infer_instance

/-- Python truthiness of an optional string argument (`None` and `""`
are falsy). -/
def truthyStr : Option String → Bool
  | none => false
  | some s => !(s == "")

/-- `get_entries_range(start_date=None, end_date=None)`: the range
filter applies only when both endpoints are truthy (`if start_date and
end_date:`); rows come back ordered by date descending, id descending. -/
def get_entries_range (db : DB) (start_date end_date : Option String) : List Record :=
  if truthyStr start_date = true ∧ truthyStr end_date = true then
    List.insertionSort entOrd
      (db.expenses.filter fun r => inRangeB (start_date.getD "") (end_date.getD "") r.date)
  else
    List.insertionSort entOrd db.expenses

/-- `delete_entry_db`: `DELETE FROM expenses WHERE id = ?`. -/
def delete_entry_db (db : DB) (entry_id : ℕ) : DB :=
  { db with expenses := db.expenses.filter fun r => !(r.id == entry_id) }

/-! ### Lexicographic-comparison lemmas -/

theorem char_toNat_inj {a b : Char} (h : a.toNat = b.toNat) : a = b := by
  apply Char.eq_of_val_eq
  apply UInt32.eq_of_val_eq
  exact Fin.eq_of_val_eq h

theorem string_data_inj {s t : String} (h : s.data = t.data) : s = t :=
  congrArg String.mk h

theorem lexLe_refl (a : List Char) : lexLe a a = true := by
  induction a with
  | nil => rfl
  | cons c cs ih => simp [lexLe, ih]

theorem lexLe_total (a b : List Char) : lexLe a b = true ∨ lexLe b a = true := by
  induction a generalizing b with
  | nil => left; rfl
  | cons c cs ih =>
    cases b with
    | nil => right; rfl
    | cons d ds =>
      rcases Nat.lt_trichotomy c.toNat d.toNat with h | h | h
      · left; simp [lexLe, h]
      · rcases ih ds with h2 | h2
        · left; simp [lexLe, h, h2]
        · right; simp [lexLe, h.symm, h2]
      · right; simp [lexLe, h]

theorem lexLe_cons {x y : Char} {xs ys : List Char} :
    lexLe (x :: xs) (y :: ys) = true ↔
      (x.toNat < y.toNat ∨ (x.toNat = y.toNat ∧ lexLe xs ys = true)) := by
  simp only [lexLe]
  split_ifs with h1 h2
  · simp [h1]
  · simp; omega
  · have he : x.toNat = y.toNat := by omega
    simp [he]

theorem lexLe_trans {a b c : List Char} (h1 : lexLe a b = true) (h2 : lexLe b c = true) :
    lexLe a c = true := by
  induction a generalizing b c with
  | nil => rfl
  | cons x xs ih =>
    cases b with
    | nil => simp [lexLe] at h1
    | cons y ys =>
      cases c with
      | nil => simp [lexLe] at h2
      | cons z zs =>
        rw [lexLe_cons] at h1 h2 ⊢
        rcases h1 with h1 | ⟨e1, r1⟩ <;> rcases h2 with h2 | ⟨e2, r2⟩
        · left; omega
        · left; omega
        · left; omega
        · exact Or.inr ⟨by omega, ih r1 r2⟩

theorem lexLe_antisymm {a b : List Char} (h1 : lexLe a b = true) (h2 : lexLe b a = true) :
    a = b := by
  induction a generalizing b with
  | nil =>
    cases b with
    | nil => rfl
    | cons y ys => simp [lexLe] at h2
  | cons x xs ih =>
    cases b with
    | nil => simp [lexLe] at h1
    | cons y ys =>
      rw [lexLe_cons] at h1 h2
      rcases h1 with h1 | ⟨e1, r1⟩ <;> rcases h2 with h2 | ⟨e2, r2⟩
      · omega
      · omega
      · omega
      · rw [char_toNat_inj e1, ih r1 r2]

theorem strLeB_refl (s : String) : strLeB s s = true := lexLe_refl s.data

theorem strLeB_total (s t : String) : strLeB s t = true ∨ strLeB t s = true :=
  lexLe_total s.data t.data

theorem strLeB_trans {s t u : String} (h1 : strLeB s t = true) (h2 : strLeB t u = true) :
    strLeB s u = true := lexLe_trans h1 h2

theorem strLeB_antisymm {s t : String} (h1 : strLeB s t = true) (h2 : strLeB t s = true) :
    s = t := string_data_inj (lexLe_antisymm h1 h2)

instance : IsTotal Record entOrd := by
  constructor
  intro a b
  by_cases hd : a.date = b.date
  · rcases Nat.le_total b.id a.id with h | h
    · exact Or.inl ⟨by rw [hd]; exact strLeB_refl _, fun _ => h⟩
    · exact Or.inr ⟨by rw [hd]; exact strLeB_refl _, fun _ => h⟩
  · rcases strLeB_total b.date a.date with h | h
    · exact Or.inl ⟨h, fun he => absurd he hd⟩
    · exact Or.inr ⟨h, fun he => absurd he.symm hd⟩

instance : IsTrans Record entOrd := by
  constructor
  rintro a b c ⟨h1, h1'⟩ ⟨h2, h2'⟩
  refine ⟨strLeB_trans h2 h1, fun hac => ?_⟩
  have hba : b.date = a.date := by
    apply strLeB_antisymm h1
    rw [hac]; exact h2
  exact le_trans (h2' (by rw [hba, hac])) (h1' hba.symm)

/-! ### Calendar lemmas -/

theorem daysInMonth_ge (y m : ℕ) : 28 ≤ daysInMonth y m := by
  unfold daysInMonth; split_ifs <;> omega

theorem daysInMonth_twelve (y : ℕ) : daysInMonth y 12 = 31 := rfl

theorem validDate_prevDay {d : Date} (hv : ValidDate d) : ValidDate (prevDay d) := by
  obtain ⟨y, m, dy⟩ := d
  obtain ⟨hm1, hm2, hd1, hd2⟩ := hv
  dsimp only at hm1 hm2 hd1 hd2
  by_cases h1 : 1 < dy
  · have hp : prevDay ⟨y, m, dy⟩ = ⟨y, m, dy - 1⟩ := by simp [prevDay, h1]
    rw [hp]
    exact ⟨hm1, hm2, show 1 ≤ dy - 1 by omega, show dy - 1 ≤ daysInMonth y m by omega⟩
  · by_cases h2 : 1 < m
    · have hp : prevDay ⟨y, m, dy⟩ = ⟨y, m - 1, daysInMonth y (m - 1)⟩ := by
        simp [prevDay, h1, h2]
      rw [hp]
      exact ⟨show 1 ≤ m - 1 by omega, show m - 1 ≤ 12 by omega,
        show 1 ≤ daysInMonth y (m - 1) by have := daysInMonth_ge y (m - 1); omega,
        show daysInMonth y (m - 1) ≤ daysInMonth y (m - 1) from le_refl _⟩
    · have hp : prevDay ⟨y, m, dy⟩ = ⟨y - 1, 12, 31⟩ := by simp [prevDay, h1, h2]
      rw [hp]
      exact ⟨show (1 : ℕ) ≤ 12 by omega, show (12 : ℕ) ≤ 12 by omega,
        show (1 : ℕ) ≤ 31 by omega,
        show (31 : ℕ) ≤ daysInMonth (y - 1) 12 by rw [daysInMonth_twelve]⟩

theorem prevDay_year_bounds (d : Date) :
    d.year - 1 ≤ (prevDay d).year ∧ (prevDay d).year ≤ d.year := by
  unfold prevDay; split_ifs <;> simp

theorem nextDay_prevDay {d : Date} (hv : ValidDate d) (hy : 1 ≤ d.year) :
    nextDay (prevDay d) = d := by
  obtain ⟨y, m, dy⟩ := d
  obtain ⟨hm1, hm2, hd1, hd2⟩ := hv
  dsimp only at hm1 hm2 hd1 hd2 hy
  by_cases h1 : 1 < dy
  · have hp : prevDay ⟨y, m, dy⟩ = ⟨y, m, dy - 1⟩ := by simp [prevDay, h1]
    rw [hp]
    have h2 : dy - 1 < daysInMonth y m := by omega
    simp [nextDay, h2, Date.mk.injEq]
    omega
  · by_cases h2 : 1 < m
    · have hdy : dy = 1 := by omega
      have hp : prevDay ⟨y, m, dy⟩ = ⟨y, m - 1, daysInMonth y (m - 1)⟩ := by
        simp [prevDay, h1, h2]
      rw [hp]
      have h3 : ¬ (daysInMonth y (m - 1) < daysInMonth y (m - 1)) := lt_irrefl _
      have h4 : m - 1 < 12 := by omega
      simp [nextDay, h3, h4, Date.mk.injEq]
      omega
    · have hdy : dy = 1 := by omega
      have hm : m = 1 := by omega
      have hp : prevDay ⟨y, m, dy⟩ = ⟨y - 1, 12, 31⟩ := by simp [prevDay, h1, h2]
      rw [hp]
      have h3 : ¬ ((31 : ℕ) < daysInMonth (y - 1) 12) := by rw [daysInMonth_twelve]; omega
      have h4 : ¬ ((12 : ℕ) < 12) := by omega
      simp [nextDay, h3, h4, Date.mk.injEq]
      omega

theorem nextDay_prevDay_iter :
    ∀ (n : ℕ) (d : Date), ValidDate d → n ≤ d.year → nextDay^[n] (prevDay^[n] d) = d
  | 0, _, _, _ => rfl
  | n + 1, d, hv, hy => by
    rw [Function.iterate_succ_apply', Function.iterate_succ_apply]
    have hvp := validDate_prevDay hv
    have hyp : n ≤ (prevDay d).year := by
      have := prevDay_year_bounds d; omega
    rw [nextDay_prevDay_iter n (prevDay d) hvp hyp]
    exact nextDay_prevDay hv (by omega)

/-! ### CSV layer

`export_csv` uses `csv.writer` with its defaults: delimiter `,`,
quote character `"`, doubled quotes, `QUOTE_MINIMAL`, line terminator
`"\r\n"` (and the file is opened with `newline=''`, so no translation).
`pmain` models `csv.reader` on such a file. -/

def csvSpecial (c : Char) : Bool := c = ',' || c = '"' || c = '\r' || c = '\n'

def needsQuote (cs : List Char) : Bool := cs.any csvSpecial

/-- Doubling of the quote character inside a quoted field. -/
def escQ : List Char → List Char
  | [] => []
  | c :: cs => if c = '"' then '"' :: '"' :: escQ cs else c :: escQ cs

/-- QUOTE_MINIMAL field encoding. -/
def encField (cs : List Char) : List Char :=
  if needsQuote cs then '"' :: (escQ cs ++ ['"']) else cs

/-- One `writer.writerow` call. -/
def encRow : List (List Char) → List Char
  | [] => ['\r', '\n']
  | [f] => encField f ++ ['\r', '\n']
  | f :: fs => encField f ++ ',' :: encRow fs

def encCsv : List (List (List Char)) → List Char
  | [] => []
  | r :: rs => encRow r ++ encCsv rs

/-- Reader states: at the start of a field, inside an unquoted field,
inside a quoted field, and just after the closing quote of a quoted
field. -/
inductive PM
  | start
  | field
  | quoted
  | qend

/-- State machine of `csv.reader`: current input, state, characters of
the current field, fields of the current row. -/
def pmain : List Char → PM → List Char → List (List Char) → List (List (List Char))
  | [], PM.start, _, row => if row.isEmpty then [] else [row ++ [[]]]
  | [], PM.field, fld, row => [row ++ [fld]]
  | [], PM.quoted, fld, row => [row ++ [fld]]
  | [], PM.qend, fld, row => [row ++ [fld]]
  | '"' :: cs, PM.start, _, row => pmain cs PM.quoted [] row
  | ',' :: cs, PM.start, _, row => pmain cs PM.start [] (row ++ [[]])
  | '\r' :: '\n' :: cs, PM.start, _, row =>
    if row.isEmpty then [] :: pmain cs PM.start [] []
    else (row ++ [[]]) :: pmain cs PM.start [] []
  | '\n' :: cs, PM.start, _, row =>
    if row.isEmpty then [] :: pmain cs PM.start [] []
    else (row ++ [[]]) :: pmain cs PM.start [] []
  | '\r' :: cs, PM.start, _, row =>
    if row.isEmpty then [] :: pmain cs PM.start [] []
    else (row ++ [[]]) :: pmain cs PM.start [] []
  | c :: cs, PM.start, _, row => pmain cs PM.field [c] row
  | '"' :: '"' :: cs, PM.quoted, fld, row => pmain cs PM.quoted (fld ++ ['"']) row
  | '"' :: cs, PM.quoted, fld, row => pmain cs PM.qend fld row
  | c :: cs, PM.quoted, fld, row => pmain cs PM.quoted (fld ++ [c]) row
  | ',' :: cs, PM.qend, fld, row => pmain cs PM.start [] (row ++ [fld])
  | '\r' :: '\n' :: cs, PM.qend, fld, row => (row ++ [fld]) :: pmain cs PM.start [] []
  | '\n' :: cs, PM.qend, fld, row => (row ++ [fld]) :: pmain cs PM.start [] []
  | '\r' :: cs, PM.qend, fld, row => (row ++ [fld]) :: pmain cs PM.start [] []
  | c :: cs, PM.qend, fld, row => pmain cs PM.field (fld ++ [c]) row
  | ',' :: cs, PM.field, fld, row => pmain cs PM.start [] (row ++ [fld])
  | '\r' :: '\n' :: cs, PM.field, fld, row => (row ++ [fld]) :: pmain cs PM.start [] []
  | '\n' :: cs, PM.field, fld, row => (row ++ [fld]) :: pmain cs PM.start [] []
  | '\r' :: cs, PM.field, fld, row => (row ++ [fld]) :: pmain cs PM.start [] []
  | c :: cs, PM.field, fld, row => pmain cs PM.field (fld ++ [c]) row

/-- `csv.reader` over a whole file. -/
def parse_csv (s : String) : List (List String) :=
  (pmain s.data PM.start [] []).map fun row => row.map String.mk

/-- Header written by `export_csv` (line 140). -/
def headerFields : List String := ["id", "category", "amount", "date", "note"]

/-- Textual form of a record's row as `writer.writerow` stringifies it. -/
def recordFields (r : Record) : List String :=
  [toString r.id, r.category, toString r.amount, r.date, r.note]

/-- Rows selected by `export_csv` (line 137): the range filter applies
only when both endpoints are truthy. -/
def export_rows (db : DB) (start_date end_date : Option String) : List Record :=
  if truthyStr start_date = true ∧ truthyStr end_date = true then
    get_entries_range db start_date end_date
  else get_entries_range db none none

/-- `export_csv`: header row then one row per selected record. -/
def export_csv (db : DB) (start_date end_date : Option String) : String :=
  String.mk (encCsv ((headerFields :: (export_rows db start_date end_date).map recordFields).map
    fun row => row.map String.data))

/-! ### CSV round-trip lemmas -/

theorem string_mk_data (s : String) : String.mk s.data = s := rfl

theorem csvSpecial_false {c : Char} (h : csvSpecial c = false) :
    c ≠ ',' ∧ c ≠ '"' ∧ c ≠ '\r' ∧ c ≠ '\n' := by
  have h2 : ((¬c = ',' ∧ ¬c = '"') ∧ ¬c = '\r') ∧ ¬c = '\n' := by
    simpa [csvSpecial] using h
  exact ⟨h2.1.1.1, h2.1.1.2, h2.1.2, h2.2⟩

theorem pmain_field_plain (f : List Char) (h : ∀ c ∈ f, csvSpecial c = false) :
    ∀ (rest fld : List Char) (row : List (List Char)),
      pmain (f ++ rest) PM.field fld row = pmain rest PM.field (fld ++ f) row := by
  induction f with
  | nil => intro rest fld row; simp
  | cons c t ih =>
    intro rest fld row
    obtain ⟨h1, _, h3, h4⟩ := csvSpecial_false (h c (List.mem_cons_self c t))
    have step : pmain (c :: (t ++ rest)) PM.field fld row
        = pmain (t ++ rest) PM.field (fld ++ [c]) row := by
      simp [pmain, h1, h3, h4]
    calc pmain ((c :: t) ++ rest) PM.field fld row
        = pmain (t ++ rest) PM.field (fld ++ [c]) row := step
      _ = pmain rest PM.field ((fld ++ [c]) ++ t) row :=
          ih (fun d hd => h d (List.mem_cons_of_mem c hd)) rest (fld ++ [c]) row
      _ = pmain rest PM.field (fld ++ (c :: t)) row := by simp

theorem pmain_quoted_esc (f : List Char) :
    ∀ (rest fld : List Char) (row : List (List Char)), rest.head? ≠ some '"' →
      pmain (escQ f ++ '"' :: rest) PM.quoted fld row = pmain rest PM.qend (fld ++ f) row := by
  induction f with
  | nil =>
    intro rest fld row hr
    cases rest with
    | nil => simp [escQ, pmain]
    | cons d ds =>
      have hd : d ≠ '"' := by intro he; exact hr (by rw [he]; rfl)
      simp [escQ, pmain, hd]
  | cons c t ih =>
    intro rest fld row hr
    by_cases hc : c = '"'
    · subst hc
      have step : escQ ('"' :: t) ++ '"' :: rest
          = '"' :: '"' :: (escQ t ++ '"' :: rest) := by simp [escQ]
      rw [step]
      have red : pmain ('"' :: '"' :: (escQ t ++ '"' :: rest)) PM.quoted fld row
          = pmain (escQ t ++ '"' :: rest) PM.quoted (fld ++ ['"']) row := rfl
      rw [red, ih rest (fld ++ ['"']) row hr]
      simp
    · have step : escQ (c :: t) ++ '"' :: rest = c :: (escQ t ++ '"' :: rest) := by
        simp [escQ, hc]
      rw [step]
      have red : pmain (c :: (escQ t ++ '"' :: rest)) PM.quoted fld row
          = pmain (escQ t ++ '"' :: rest) PM.quoted (fld ++ [c]) row := by
        simp [pmain, hc]
      rw [red, ih rest (fld ++ [c]) row hr]
      simp

theorem needsQuote_false {f : List Char} (h : needsQuote f = false) :
    ∀ c ∈ f, csvSpecial c = false := by
  intro c hc
  have h2 := List.any_eq_false.mp h
  simpa using h2 c hc

theorem pmain_encField_comma (f : List Char) (cs : List Char) (row : List (List Char)) :
    pmain (encField f ++ ',' :: cs) PM.start [] row = pmain cs PM.start [] (row ++ [f]) := by
  by_cases hq : needsQuote f = true
  · have step : encField f ++ ',' :: cs = '"' :: (escQ f ++ '"' :: (',' :: cs)) := by
      simp [encField, hq]
    rw [step]
    have red : pmain ('"' :: (escQ f ++ '"' :: (',' :: cs))) PM.start [] row
        = pmain (escQ f ++ '"' :: (',' :: cs)) PM.quoted [] row := by simp [pmain]
    rw [red, pmain_quoted_esc f (',' :: cs) [] row (by simp)]
    rfl
  · have hq' : needsQuote f = false := by simpa using hq
    have hf := needsQuote_false hq'
    have hef : encField f = f := by simp [encField, hq']
    rw [hef]
    cases f with
    | nil => rfl
    | cons c t =>
      obtain ⟨h1, h2, h3, h4⟩ := csvSpecial_false (hf c (List.mem_cons_self c t))
      have red : pmain (c :: (t ++ ',' :: cs)) PM.start [] row
          = pmain (t ++ ',' :: cs) PM.field [c] row := by
        simp [pmain, h1, h2, h3, h4]
      show pmain ((c :: t) ++ ',' :: cs) PM.start [] row = _
      rw [List.cons_append, red,
        pmain_field_plain t (fun d hd => hf d (List.mem_cons_of_mem c hd)) (',' :: cs) [c] row]
      rfl

theorem pmain_encField_crlf (f : List Char) (cs : List Char) (row : List (List Char))
    (hne : ¬(row = [] ∧ f = [])) :
    pmain (encField f ++ '\r' :: '\n' :: cs) PM.start [] row
      = (row ++ [f]) :: pmain cs PM.start [] [] := by
  by_cases hq : needsQuote f = true
  · have step : encField f ++ '\r' :: '\n' :: cs
        = '"' :: (escQ f ++ '"' :: ('\r' :: '\n' :: cs)) := by
      simp [encField, hq]
    rw [step]
    have red : pmain ('"' :: (escQ f ++ '"' :: ('\r' :: '\n' :: cs))) PM.start [] row
        = pmain (escQ f ++ '"' :: ('\r' :: '\n' :: cs)) PM.quoted [] row := by simp [pmain]
    rw [red, pmain_quoted_esc f ('\r' :: '\n' :: cs) [] row (by simp)]
    rfl
  · have hq' : needsQuote f = false := by simpa using hq
    have hf := needsQuote_false hq'
    have hef : encField f = f := by simp [encField, hq']
    rw [hef]
    cases f with
    | nil =>
      have hrow : ¬ row.isEmpty = true := by
        cases row with
        | nil => exact absurd ⟨rfl, rfl⟩ hne
        | cons a l => simp
      simp only [List.nil_append]
      show pmain ('\r' :: '\n' :: cs) PM.start [] row = _
      simp [pmain, hrow]
    | cons c t =>
      obtain ⟨h1, h2, h3, h4⟩ := csvSpecial_false (hf c (List.mem_cons_self c t))
      have red : pmain (c :: (t ++ '\r' :: '\n' :: cs)) PM.start [] row
          = pmain (t ++ '\r' :: '\n' :: cs) PM.field [c] row := by
        simp [pmain, h1, h2, h3, h4]
      show pmain ((c :: t) ++ '\r' :: '\n' :: cs) PM.start [] row = _
      rw [List.cons_append, red,
        pmain_field_plain t (fun d hd => hf d (List.mem_cons_of_mem c hd))
          ('\r' :: '\n' :: cs) [c] row]
      rfl

theorem pmain_encRow (fs : List (List Char)) :
    ∀ (cs : List Char) (row : List (List Char)), fs ≠ [] → ¬(row = [] ∧ fs = [[]]) →
      pmain (encRow fs ++ cs) PM.start [] row = (row ++ fs) :: pmain cs PM.start [] [] := by
  induction fs with
  | nil => intro cs row h _; exact absurd rfl h
  | cons f t ih =>
    intro cs row _ hne
    cases t with
    | nil =>
      have step : encRow [f] ++ cs = encField f ++ '\r' :: '\n' :: cs := by
        simp [encRow]
      rw [step, pmain_encField_crlf f cs row]
      intro ⟨hr, hfn⟩
      exact hne ⟨hr, by rw [hfn]⟩
    | cons f2 t2 =>
      have step : encRow (f :: f2 :: t2) ++ cs
          = encField f ++ ',' :: (encRow (f2 :: t2) ++ cs) := by
        simp [encRow]
      rw [step, pmain_encField_comma f (encRow (f2 :: t2) ++ cs) row,
        ih cs (row ++ [f]) (by simp) (by simp)]
      simp

theorem pmain_encCsv (rows : List (List (List Char)))
    (h : ∀ r ∈ rows, r ≠ [] ∧ r ≠ [[]]) :
    pmain (encCsv rows) PM.start [] [] = rows := by
  induction rows with
  | nil => rfl
  | cons r rs ih =>
    obtain ⟨hr1, hr2⟩ := h r (List.mem_cons_self r rs)
    have step : encCsv (r :: rs) = encRow r ++ encCsv rs := rfl
    rw [step, pmain_encRow r (encCsv rs) [] hr1 (by rintro ⟨_, he⟩; exact hr2 he),
      ih (fun x hx => h x (List.mem_cons_of_mem r hx))]
    simp

/-! ### Concrete states used by witnesses and counterexamples -/

def rec1 : Record := ⟨1, "Food", 5, "2024-03-02", ""⟩

/-- Store with one in-month record and a configured budget of `0.0`. -/
def cexDb : DB := ⟨[rec1], 2, some 0⟩

def dbEmpty : DB := ⟨[], 1, none⟩

def todayRef : Date := ⟨2024, 3, 15⟩

/-! ### Claim C1 -/

/-- Claim C1 as stated is false on the code: in the post-summary check
(`cli_show_summary`, lines 208-213) a configured budget of `0.0` with a
period total of `5 > 0` produces no warning, because the check is
guarded by Python truthiness (`if budget:`), not by "a budget is
configured". -/
theorem budget_zero_summary_no_warning :
    cexDb.budget = some 0
  ∧ (5 : ℚ) > 0
  ∧ cli_show_summary cexDb ⟨2024, 3, 15⟩ "monthly" = .ok ([("Food", 5)], 5, none) := by
  refine ⟨rfl, by norm_num, ?_⟩
  have hsr : get_summary_range cexDb "2024-03-01" "2024-03-15" = [("Food", (5 : ℚ))] := by
    simp only [get_summary_range]
    rw [show cexDb.expenses.filter (fun r => inRangeB "2024-03-01" "2024-03-15" r.date)
          = [rec1] from by decide]
    rw [show ([rec1].map Record.category).dedup = ["Food"] from by decide]
    simp only [List.map]
    simp [List.insertionSort, List.orderedInsert, rec1]
  have hsp : get_summary_period cexDb ⟨2024, 3, 15⟩ "monthly" = .ok [("Food", (5 : ℚ))] := by
    have hres : resolve_period "monthly" ⟨2024, 3, 15⟩ = .ok (⟨2024, 3, 1⟩, ⟨2024, 3, 15⟩) :=
      rfl
    have hfmt1 : fmtDate ⟨2024, 3, 1⟩ = "2024-03-01" := by decide
    have hfmt2 : fmtDate ⟨2024, 3, 15⟩ = "2024-03-15" := by decide
    simp [get_summary_period, hres, hfmt1, hfmt2, hsr, Except.map]
  simp only [cli_show_summary, hsp, Except.map]
  simp [summary_budget_warning, show cexDb.budget = some 0 from rfl]

/-- Claim C1 (amended): after a successful Add the warning fires iff a
budget is configured (`is not None`, so also for a budget of 0) and the
month-to-date total strictly exceeds it, and it carries the total and
the budget (the exceeded amount is not part of the message); after a
period summary the warning additionally requires the configured budget
to be truthy (nonzero), and carries the exceeded amount `total - budget`;
in both checks `total = budget` produces no warning. -/
theorem budget_warning_characterization (b t : ℚ) :
    add_budget_warning none t = none
  ∧ add_budget_warning (some b) t = (if t > b then some (t, b) else none)
  ∧ add_budget_warning (some b) b = none
  ∧ summary_budget_warning none t = none
  ∧ summary_budget_warning (some b) t = (if b ≠ 0 ∧ t > b then some (t - b) else none)
  ∧ summary_budget_warning (some b) b = none := by
  refine ⟨rfl, rfl, ?_, rfl, ?_, ?_⟩
  · simp [add_budget_warning]
  · by_cases hb : b = 0
    · simp [summary_budget_warning, hb]
    · by_cases ht : t > b <;> simp [summary_budget_warning, hb, ht]
  · simp [summary_budget_warning, lt_irrefl]

/-! ### Claim C2 -/

/-- Claim C2: after a successful Add the budget check always compares the
month-to-date total of the updated table; if the stored date of the new
record lies outside the current month, the compared total equals the
pre-insert month-to-date total, and a month-to-date total over a table
with no record in the month range is 0. -/
theorem add_backdated_checks_month_to_date (db : DB) (today : Date) (category : String)
    (amount : ℚ) (date_str note : String) (d : Date) (db2 : DB) (t2 : Date)
    (h1 : parseDate date_str = some d)
    (h2 : inRangeB (fmtDate (month_start today)) (fmtDate today) (fmtDate d) = false)
    (h3 : db2.expenses.filter
      (fun r => inRangeB (fmtDate (month_start t2)) (fmtDate t2) r.date) = []) :
    add_expense_db db today category amount date_str note
      = .ok ({ db with
                expenses := db.expenses ++ [⟨db.nextId, category, amount, fmtDate d, note⟩]
                nextId := db.nextId + 1 },
             add_budget_warning db.budget (get_monthly_total db today))
  ∧ get_monthly_total db2 t2 = 0 := by
  constructor
  · have hne : date_str ≠ "" := by
      intro he
      rw [he] at h1
      exact Option.noConfusion h1
    have htot : get_monthly_total
        { db with
          expenses := db.expenses ++ [⟨db.nextId, category, amount, fmtDate d, note⟩]
          nextId := db.nextId + 1 } today = get_monthly_total db today := by
      simp [get_monthly_total, List.filter_append, h2]
    simp [add_expense_db, hne, h1, htot]
  · simp [get_monthly_total, h3]

/-- Witness for claim C2 at a backdated entry: today is 2024-03-15 and
the added expense is dated 2024-01-05, outside the current month. -/
theorem add_backdated_checks_month_to_date_witness :
    (parseDate "2024-01-05" = some ⟨2024, 1, 5⟩
      ∧ inRangeB (fmtDate (month_start todayRef)) (fmtDate todayRef)
          (fmtDate ⟨2024, 1, 5⟩) = false
      ∧ dbEmpty.expenses.filter
          (fun r => inRangeB (fmtDate (month_start todayRef)) (fmtDate todayRef) r.date) = [])
  ∧ (add_expense_db cexDb todayRef "Travel" 7 "2024-01-05" "trip"
      = .ok ({ cexDb with
                expenses := cexDb.expenses
                  ++ [⟨cexDb.nextId, "Travel", 7, fmtDate ⟨2024, 1, 5⟩, "trip"⟩]
                nextId := cexDb.nextId + 1 },
             add_budget_warning cexDb.budget (get_monthly_total cexDb todayRef))
      ∧ get_monthly_total dbEmpty todayRef = 0) :=
  ⟨⟨by decide, by decide, by decide⟩,
    add_backdated_checks_month_to_date cexDb todayRef "Travel" 7 "2024-01-05" "trip"
      ⟨2024, 1, 5⟩ dbEmpty todayRef (by decide) (by decide) (by decide)⟩

/-! ### Claim C3 -/

/-- Claim C3 as stated is false on the code at the input `"03/01/2024"`:
the Add does fail and persists nothing, but the raised message is
`"Date must be in YYYY-MM-DD format"` (capital `Date`, line 67), not the
claimed `"date must be in YYYY-MM-DD format"`. -/
theorem add_bad_date_message_differs :
    add_expense_db dbEmpty todayRef "Food" 5 "03/01/2024" ""
      = .error "Date must be in YYYY-MM-DD format"
  ∧ "Date must be in YYYY-MM-DD format" ≠ "date must be in YYYY-MM-DD format" := by
  constructor
  · decide
  · decide

/-- Claim C3 (amended): every Add with a present date string that does
not parse as `YYYY-MM-DD` fails with `ValueError("Date must be in
YYYY-MM-DD format")` and leaves the record set exactly as it was. -/
theorem add_bad_date_rejected (db : DB) (today : Date) (category : String) (amount : ℚ)
    (date_str note : String) (h1 : date_str ≠ "") (h2 : parseDate date_str = none) :
    add_expense_db db today category amount date_str note
      = .error "Date must be in YYYY-MM-DD format"
  ∧ db_after_add db today category amount date_str note = db := by
  have he : add_expense_db db today category amount date_str note
      = .error "Date must be in YYYY-MM-DD format" := by
    simp [add_expense_db, h1, h2]
  exact ⟨he, by simp [db_after_add, he]⟩

/-- Witness for claim C3 (amended) at the spec's own example input. -/
theorem add_bad_date_rejected_witness :
    ("03/01/2024" ≠ "" ∧ parseDate "03/01/2024" = none)
  ∧ (add_expense_db cexDb todayRef "Food" 10 "03/01/2024" "w"
      = .error "Date must be in YYYY-MM-DD format"
    ∧ db_after_add cexDb todayRef "Food" 10 "03/01/2024" "w" = cexDb) :=
  ⟨⟨by decide, by decide⟩,
    add_bad_date_rejected cexDb todayRef "Food" 10 "03/01/2024" "w" (by decide) (by decide)⟩

/-! ### Claim C4 -/

/-- Claim C4 as stated is false on the code: `add_expense_db` performs no
category validation, so an Add with an empty category succeeds and
persists a record whose category is the empty string (the `TEXT NOT
NULL` column constraint does not reject `""`). -/
theorem add_empty_category_succeeds :
    add_expense_db dbEmpty todayRef "" 5 "2024-03-02" "note"
      = .ok (⟨[⟨1, "", 5, "2024-03-02", "note"⟩], 2, none⟩, none)
  ∧ ((⟨[⟨1, "", 5, "2024-03-02", "note"⟩], 2, none⟩ : DB).expenses.map Record.category)
      = [""] := by
  constructor
  · decide
  · decide

/-- Claim C4 (amended): the store never validates the category; an Add
whose category is the empty string succeeds (no `ValidationError`) and
appends a record with empty category, so the store does not maintain the
non-empty-category invariant (only the GUI form pre-checks the field). -/
theorem add_empty_category_no_validation (db : DB) (today : Date) (amount : ℚ)
    (date_str note : String) (d : Date) (h : parseDate date_str = some d) :
    add_expense_db db today "" amount date_str note
      = .ok ({ db with
                expenses := db.expenses ++ [⟨db.nextId, "", amount, fmtDate d, note⟩]
                nextId := db.nextId + 1 },
             add_budget_warning db.budget
               (get_monthly_total
                 { db with
                   expenses := db.expenses ++ [⟨db.nextId, "", amount, fmtDate d, note⟩]
                   nextId := db.nextId + 1 } today))
  ∧ (db.expenses ++ [(⟨db.nextId, "", amount, fmtDate d, note⟩ : Record)]).map Record.category
      = db.expenses.map Record.category ++ [""] := by
  constructor
  · have hne : date_str ≠ "" := by
      intro he
      rw [he] at h
      exact Option.noConfusion h
    simp [add_expense_db, hne, h]
  · simp

/-- Witness for claim C4 (amended). -/
theorem add_empty_category_no_validation_witness :
    (parseDate "2024-03-02" = some ⟨2024, 3, 2⟩)
  ∧ (add_expense_db cexDb todayRef "" 5 "2024-03-02" "n"
      = .ok ({ cexDb with
                expenses := cexDb.expenses
                  ++ [⟨cexDb.nextId, "", 5, fmtDate ⟨2024, 3, 2⟩, "n"⟩]
                nextId := cexDb.nextId + 1 },
             add_budget_warning cexDb.budget
               (get_monthly_total
                 { cexDb with
                   expenses := cexDb.expenses
                     ++ [⟨cexDb.nextId, "", 5, fmtDate ⟨2024, 3, 2⟩, "n"⟩]
                   nextId := cexDb.nextId + 1 } todayRef))
    ∧ (cexDb.expenses ++ [(⟨cexDb.nextId, "", 5, fmtDate ⟨2024, 3, 2⟩, "n"⟩ : Record)]).map
        Record.category = cexDb.expenses.map Record.category ++ [""]) :=
  ⟨by decide,
    add_empty_category_no_validation cexDb todayRef 5 "2024-03-02" "n" ⟨2024, 3, 2⟩
      (by decide)⟩

/-! ### Claim C5 -/

/-- Claim C5: `weekly` resolves to the pair (today minus 6 days, today) —
a span of exactly 7 calendar days ending today, witnessed by six
`nextDay` steps recovering today from the start — `monthly` resolves to
(first of the current month, today), and every other period token fails
with `ValueError("Unknown period")`. -/
theorem resolve_period_spec (p : String) (today : Date)
    (h1 : ValidDate today) (h2 : 6 ≤ today.year) :
    resolve_period "weekly" today = .ok (subDays today 6, today)
  ∧ nextDay^[6] (subDays today 6) = today
  ∧ resolve_period "monthly" today = .ok (⟨today.year, today.month, 1⟩, today)
  ∧ (p ≠ "weekly" → p ≠ "monthly" → resolve_period p today = .error "Unknown period") := by
  refine ⟨rfl, nextDay_prevDay_iter 6 today h1 h2, rfl, ?_⟩
  intro hw hm
  simp [resolve_period, hw, hm]

/-- Witness for claim C5 on 2024-03-15 and the unsupported token
`"yearly"`. -/
theorem resolve_period_spec_witness :
    (ValidDate todayRef ∧ 6 ≤ todayRef.year)
  ∧ (resolve_period "weekly" todayRef = .ok (subDays todayRef 6, todayRef)
    ∧ nextDay^[6] (subDays todayRef 6) = todayRef
    ∧ resolve_period "monthly" todayRef = .ok (⟨todayRef.year, todayRef.month, 1⟩, todayRef)
    ∧ ("yearly" ≠ "weekly" → "yearly" ≠ "monthly"
        → resolve_period "yearly" todayRef = .error "Unknown period")) :=
  ⟨⟨by decide, by decide⟩, resolve_period_spec "yearly" todayRef (by decide) (by decide)⟩

/-! ### Claim C6 -/

/-- Records of the table whose date lies in the inclusive range. -/
def in_range_expenses (db : DB) (start_date end_date : String) : List Record :=
  db.expenses.filter fun r => inRangeB start_date end_date r.date

/-- Claim C6: the summary has one `(category, total)` pair per distinct
category among the in-range records, each total is the amount sum of
exactly the in-range records of that category, the pairs are sorted by
total descending, and out-of-range records never contribute (restricting
the table to its in-range records leaves the summary unchanged). -/
theorem summary_range_spec (db : DB) (start_date end_date : String) :
    List.Sorted sumOrd (get_summary_range db start_date end_date)
  ∧ (get_summary_range db start_date end_date).Perm
      (((in_range_expenses db start_date end_date).map Record.category).dedup.map fun c =>
        (c, (((in_range_expenses db start_date end_date).filter
            fun r => r.category == c).map Record.amount).sum))
  ∧ ((get_summary_range db start_date end_date).map Prod.fst).Perm
      ((in_range_expenses db start_date end_date).map Record.category).dedup
  ∧ (∀ p ∈ get_summary_range db start_date end_date,
      p.2 = (((in_range_expenses db start_date end_date).filter
          fun r => r.category == p.1).map Record.amount).sum)
  ∧ get_summary_range { db with expenses := in_range_expenses db start_date end_date }
      start_date end_date = get_summary_range db start_date end_date := by
  have hmain : get_summary_range db start_date end_date
      = List.insertionSort sumOrd
          (((in_range_expenses db start_date end_date).map Record.category).dedup.map fun c =>
            (c, (((in_range_expenses db start_date end_date).filter
                fun r => r.category == c).map Record.amount).sum)) := rfl
  refine ⟨?_, ?_, ?_, ?_, ?_⟩
  · rw [hmain]
    exact List.sorted_insertionSort sumOrd _
  · rw [hmain]
    exact List.perm_insertionSort _ _
  · rw [hmain]
    have heq : ((((in_range_expenses db start_date end_date).map Record.category).dedup.map
          fun c => (c, (((in_range_expenses db start_date end_date).filter
              fun r => r.category == c).map Record.amount).sum)).map Prod.fst)
        = ((in_range_expenses db start_date end_date).map Record.category).dedup := by
      simp [List.map_map, Function.comp_def]
    have hp := (List.perm_insertionSort sumOrd
      (((in_range_expenses db start_date end_date).map Record.category).dedup.map fun c =>
        (c, (((in_range_expenses db start_date end_date).filter
            fun r => r.category == c).map Record.amount).sum))).map Prod.fst
    rw [heq] at hp
    exact hp
  · intro p hp
    have hmem : p ∈ ((in_range_expenses db start_date end_date).map Record.category).dedup.map
        fun c => (c, (((in_range_expenses db start_date end_date).filter
            fun r => r.category == c).map Record.amount).sum) :=
      (List.perm_insertionSort sumOrd _).mem_iff.mp (hmain ▸ hp)
    rcases List.mem_map.mp hmem with ⟨c, _, hc⟩
    subst hc
    rfl
  · simp only [get_summary_range, in_range_expenses, List.filter_filter]
    simp [Bool.and_self]

/-! ### Claim C7 -/

/-- Claim C7: deleting an id removes exactly the records with that id
and keeps everything else, a delete of an absent id is a no-op (and not
an error: the operation is total), a second delete of the same id
changes nothing, and a listing after the delete never contains the id. -/
theorem delete_entry_spec (db : DB) (entry_id : ℕ) :
    (delete_entry_db db entry_id).expenses.filter (fun r => r.id == entry_id) = []
  ∧ (delete_entry_db db entry_id).expenses
      = db.expenses.filter (fun r => !(r.id == entry_id))
  ∧ delete_entry_db (delete_entry_db db entry_id) entry_id = delete_entry_db db entry_id
  ∧ (delete_entry_db db entry_id = db
      ↔ db.expenses.filter (fun r => r.id == entry_id) = [])
  ∧ (get_entries_range (delete_entry_db db entry_id) none none).filter
      (fun r => r.id == entry_id) = [] := by
  obtain ⟨l, n, b⟩ := db
  have h1 : (delete_entry_db ⟨l, n, b⟩ entry_id).expenses.filter
      (fun r => r.id == entry_id) = [] := by
    simp [delete_entry_db, List.filter_filter]
  refine ⟨h1, rfl, ?_, ?_, ?_⟩
  · simp [delete_entry_db, List.filter_filter]
  · constructor
    · intro h
      have hx : l.filter (fun r => !(r.id == entry_id)) = l := by
        have := congrArg DB.expenses h
        simpa [delete_entry_db] using this
      have hall := List.filter_eq_self.mp hx
      apply List.filter_eq_nil_iff.mpr
      intro a ha
      have h2 := hall a ha
      simp only [Bool.not_eq_true'] at h2
      simp [h2]
    · intro h
      have hall := List.filter_eq_nil_iff.mp h
      have hx : l.filter (fun r => !(r.id == entry_id)) = l :=
        List.filter_eq_self.mpr (fun a ha => by simpa using hall a ha)
      simp [delete_entry_db, hx]
  · have hform : get_entries_range (delete_entry_db ⟨l, n, b⟩ entry_id) none none
        = List.insertionSort entOrd (delete_entry_db ⟨l, n, b⟩ entry_id).expenses := by
      simp [get_entries_range, truthyStr]
    rw [hform]
    apply List.filter_eq_nil_iff.mpr
    intro a ha
    have hmem : a ∈ (delete_entry_db ⟨l, n, b⟩ entry_id).expenses :=
      (List.perm_insertionSort entOrd _).mem_iff.mp ha
    exact List.filter_eq_nil_iff.mp h1 a hmem

/-! ### Claim C8 -/

/-- Claim C8: re-reading an exported file with the CSV reader yields
exactly the header row followed by the textual field tuple
`(id, category, amount, date, note)` of every exported record — for
arbitrary field contents, including notes containing the delimiter,
quotes or embedded newlines — and an unfiltered export covers exactly
the persisted records. -/
theorem csv_roundtrip (db : DB) (start_date end_date : Option String) :
    parse_csv (export_csv db start_date end_date)
      = headerFields :: (export_rows db start_date end_date).map recordFields
  ∧ (export_rows db none none).Perm db.expenses := by
  constructor
  · have hrows : ∀ r ∈ (headerFields :: (export_rows db start_date end_date).map
        recordFields).map (fun row => row.map String.data), r ≠ [] ∧ r ≠ [[]] := by
      intro r hr
      rcases List.mem_map.mp hr with ⟨row, hrow, hEq⟩
      have hlen : row.length = 5 := by
        rcases List.mem_cons.mp hrow with h | h
        · rw [h]; rfl
        · rcases List.mem_map.mp h with ⟨rec, _, hEq2⟩
          rw [← hEq2]; rfl
      have hrl : r.length = 5 := by rw [← hEq, List.length_map, hlen]
      constructor
      · intro h0; rw [h0] at hrl; simp at hrl
      · intro h0; rw [h0] at hrl; simp at hrl
    have hstart : parse_csv (export_csv db start_date end_date)
        = (pmain (encCsv ((headerFields :: (export_rows db start_date end_date).map
            recordFields).map fun row => row.map String.data)) PM.start [] []).map
            (fun row => row.map String.mk) := rfl
    rw [hstart, pmain_encCsv _ hrows, List.map_map]
    simp [Function.comp_def, List.map_map, string_mk_data]
  · have hn : export_rows db none none = List.insertionSort entOrd db.expenses := by
      simp [export_rows, truthyStr, get_entries_range]
    rw [hn]
    exact List.perm_insertionSort _ _

/-! ### Claim C9 -/

/-- Claim C9: listings come back sorted by date descending with ties
broken by id descending; with both endpoints given (as nonempty
canonical strings) exactly the in-range records are returned, and with
no endpoints all records are returned. -/
theorem entries_order_spec (db : DB) (s e : String) (h1 : s ≠ "") (h2 : e ≠ "") :
    List.Sorted entOrd (get_entries_range db (some s) (some e))
  ∧ (get_entries_range db (some s) (some e)).Perm (in_range_expenses db s e)
  ∧ List.Sorted entOrd (get_entries_range db none none)
  ∧ (get_entries_range db none none).Perm db.expenses := by
  have hts : truthyStr (some s) = true := by simp [truthyStr, h1]
  have hte : truthyStr (some e) = true := by simp [truthyStr, h2]
  have hr : get_entries_range db (some s) (some e)
      = List.insertionSort entOrd (in_range_expenses db s e) := by
    simp [get_entries_range, hts, hte, in_range_expenses]
  have hn : get_entries_range db none none = List.insertionSort entOrd db.expenses := by
    simp [get_entries_range, truthyStr]
  rw [hr, hn]
  exact ⟨List.sorted_insertionSort _ _, List.perm_insertionSort _ _,
    List.sorted_insertionSort _ _, List.perm_insertionSort _ _⟩

/-- Witness for claim C9 on a concrete store and range. -/
theorem entries_order_spec_witness :
    ("2024-01-01" ≠ "" ∧ "2024-12-31" ≠ "")
  ∧ (List.Sorted entOrd (get_entries_range cexDb (some "2024-01-01") (some "2024-12-31"))
    ∧ (get_entries_range cexDb (some "2024-01-01") (some "2024-12-31")).Perm
        (in_range_expenses cexDb "2024-01-01" "2024-12-31")
    ∧ List.Sorted entOrd (get_entries_range cexDb none none)
    ∧ (get_entries_range cexDb none none).Perm cexDb.expenses) :=
  ⟨⟨by decide, by decide⟩,
    entries_order_spec cexDb "2024-01-01" "2024-12-31" (by decide) (by decide)⟩

/-! ### Claim C10 -/

/-- Claim C10: when at most one endpoint of the range is truthy (absent
or empty string), both the listing and the CSV export silently ignore
the range and behave exactly as the unfiltered calls. -/
theorem half_range_ignored (db : DB) (start_date end_date : Option String)
    (h : (truthyStr start_date && truthyStr end_date) = false) :
    get_entries_range db start_date end_date = get_entries_range db none none
  ∧ export_csv db start_date end_date = export_csv db none none := by
  have hc : ¬(truthyStr start_date = true ∧ truthyStr end_date = true) := by
    rintro ⟨a, b⟩
    rw [a, b] at h
    simp at h
  have hnone : ¬(truthyStr (none : Option String) = true
      ∧ truthyStr (none : Option String) = true) := by
    simp [truthyStr]
  have h1 : get_entries_range db start_date end_date = get_entries_range db none none := by
    simp only [get_entries_range]
    rw [if_neg hc, if_neg hnone]
  have h2 : export_rows db start_date end_date = export_rows db none none := by
    simp only [export_rows]
    rw [if_neg hc, if_neg hnone]
  exact ⟨h1, by simp [export_csv, h2]⟩

/-- Witness for claim C10: a start date with no end date. -/
theorem half_range_ignored_witness :
    ((truthyStr (some "2024-01-01") && truthyStr none) = false)
  ∧ (get_entries_range cexDb (some "2024-01-01") none = get_entries_range cexDb none none
    ∧ export_csv cexDb (some "2024-01-01") none = export_csv cexDb none none) :=
  ⟨by decide, half_range_ignored cexDb (some "2024-01-01") none (by decide)⟩

end ExpenseTracker
